import Mathlib

/-!
Formal model of the DocuMind front end.

Shallow embedding of the pure / deterministic parts of
src/services/geminiService.ts and src/App.tsx that the verified claims are
about: the JSON-extraction fallback, the request construction of
processMultimodalIntel, the Veo poll-until-done loop, the live-audio
scheduling in the onmessage handler, the error path of runMultimodalAnalysis,
the live-voice toggle, and the base64 / PCM audio utilities.

Conventions: JS strings that carry binary data are represented by their
char-code sequences (List Nat); ordinary text by String or List Char; machine
floats that are exact in the modelled computations (16-bit PCM divided by the
power of two 32768) by rationals; fallible platform builtins (JSON.parse,
atob) by Option-returning functions.
-/

namespace DocuMind

/-- Model of the regex fallback in extractJSON (geminiService.ts line 9):
text.match of the greedy pattern brace, [\s\S]*, brace. The leftmost match of
that pattern starts at the first opening brace of the text and, being greedy,
extends to the last closing brace; a match exists exactly when some closing
brace occurs after some opening brace. Returns the matched substring. -/
def braceBlock (s : List Char) : Option (List Char) :=
  match s.findIdx? (fun c => c = '{'), s.reverse.findIdx? (fun c => c = '}') with
  | some i, some jr =>
      let j := s.length - 1 - jr
      if i < j then some ((s.drop i).take (j - i + 1)) else none
  | _, _ => none

/-- Model of extractJSON (geminiService.ts lines 5-19). JSON.parse is a
platform builtin, modelled as an Option-returning parameter; a thrown Error
with its message is modelled by Except.error. -/
def extractJSON {α : Type} (parse : List Char → Option α) (text : List Char) :
    Except String α :=
  match parse text with
  | some v => Except.ok v
  | none =>
    match braceBlock text with
    | some block =>
      match parse block with
      | some v => Except.ok v
      | none => Except.error "Failed to parse response JSON"
    | none => Except.error "No valid JSON found in response"

/-- Concrete stand-in parser used by witnesses: accepts exactly the three-char
text consisting of an opening brace, the digit 1, and a closing brace. -/
def sampleParse : List Char → Option Nat :=
  fun s => if s = ['{', '1', '}'] then some 1 else none

/-- C1: when the whole response text does not parse, extractJSON falls back to
the regex-extracted brace-delimited block and returns that block's parse when
the block parses. -/
theorem extractJSON_fallback {α : Type} (parse : List Char → Option α)
    (text block : List Char) (v : α)
    (hwhole : parse text = none)
    (hblock : braceBlock text = some block)
    (hparse : parse block = some v) :
    extractJSON parse text = Except.ok v := by
  simp [extractJSON, hwhole, hblock, hparse]

/-- Witness for C1 at the concrete text a, opening brace, 1, closing brace. -/
theorem extractJSON_fallback_witness :
    sampleParse ['a', '{', '1', '}'] = none ∧
      braceBlock ['a', '{', '1', '}'] = some ['{', '1', '}'] ∧
      extractJSON sampleParse ['a', '{', '1', '}'] = Except.ok 1 :=
  ⟨by decide, by decide,
    extractJSON_fallback sampleParse ['a', '{', '1', '}'] ['{', '1', '}'] 1
      (by decide) (by decide) (by decide)⟩

/-- C6: extractJSON raises exactly when the whole text fails to parse and
either no brace-delimited block exists or the extracted block fails to parse
as well; and its outcome is always either a raised error or a returned
value, never anything else. -/
theorem extractJSON_error_iff {α : Type} (parse : List Char → Option α)
    (text : List Char) :
    ((∃ e, extractJSON parse text = Except.error e) ↔
      (parse text = none ∧
        (braceBlock text = none ∨
          ∃ block, braceBlock text = some block ∧ parse block = none))) ∧
    ((∃ e, extractJSON parse text = Except.error e) ∨
      (∃ v, extractJSON parse text = Except.ok v)) := by
  constructor
  · cases hw : parse text with
    | some v => simp [extractJSON, hw]
    | none =>
      cases hb : braceBlock text with
      | none => simp [extractJSON, hw, hb]
      | some block =>
        cases hp : parse block with
        | some v => simp [extractJSON, hw, hb, hp]
        | none => simp [extractJSON, hw, hb, hp]
  · cases hw : parse text with
    | some v => exact Or.inr ⟨v, by simp [extractJSON, hw]⟩
    | none =>
      cases hb : braceBlock text with
      | none =>
        exact Or.inl ⟨"No valid JSON found in response", by simp [extractJSON, hw, hb]⟩
      | some block =>
        cases hp : parse block with
        | some v => exact Or.inr ⟨v, by simp [extractJSON, hw, hb, hp]⟩
        | none =>
          exact Or.inl ⟨"Failed to parse response JSON", by simp [extractJSON, hw, hb, hp]⟩

/-- Tools that processMultimodalIntel can attach to the outbound request. -/
inductive Tool
  | googleSearch
  | googleMaps
  deriving DecidableEq

/-- The three boolean toggles passed to processMultimodalIntel. -/
structure IntelToggles where
  useSearch : Bool
  useMaps : Bool
  useThinking : Bool
  deriving DecidableEq

/-- thinkingConfig object attached when deep reasoning is enabled. -/
structure ThinkingCfg where
  thinkingBudget : Nat
  deriving DecidableEq

/-- The request-relevant fields assembled by processMultimodalIntel: model
name, tools list, optional responseMimeType, optional thinkingConfig. -/
structure IntelRequest where
  model : String
  tools : List Tool
  responseMimeType : Option String
  thinkingConfig : Option ThinkingCfg
  deriving DecidableEq

/-- Request construction of processMultimodalIntel (geminiService.ts lines
27-58): tools are pushed in source order (googleSearch, then googleMaps),
responseMimeType is set only without the googleMaps tool, thinkingConfig with
budget 32768 only when useThinking, and the model switches to the 2.5 flash
series when maps grounding is on. The network call itself is external and not
modelled. -/
def processMultimodalIntel (config : IntelToggles) : IntelRequest :=
  let tools :=
    (if config.useSearch then [Tool.googleSearch] else []) ++
    (if config.useMaps then [Tool.googleMaps] else [])
  { model := if config.useMaps then "gemini-2.5-flash-latest" else "gemini-3-pro-preview"
    tools := tools
    responseMimeType := if config.useMaps then none else some "application/json"
    thinkingConfig := if config.useThinking then some ⟨32768⟩ else none }

/-- C5: for every toggle configuration, the outbound request contains the
googleSearch tool exactly when useSearch is set, the googleMaps tool exactly
when useMaps is set, responseMimeType application/json exactly when useMaps is
not set, thinkingConfig with budget 32768 exactly when useThinking is set, and
the model is the 2.5 flash series when useMaps is set and the 3 pro preview
otherwise. -/
theorem processMultimodalIntel_request_shape (config : IntelToggles) :
    (Tool.googleSearch ∈ (processMultimodalIntel config).tools ↔ config.useSearch = true) ∧
    (Tool.googleMaps ∈ (processMultimodalIntel config).tools ↔ config.useMaps = true) ∧
    ((processMultimodalIntel config).responseMimeType = some "application/json" ↔
      config.useMaps = false) ∧
    ((processMultimodalIntel config).thinkingConfig = some ⟨32768⟩ ↔
      config.useThinking = true) ∧
    ((processMultimodalIntel config).model =
      if config.useMaps then "gemini-2.5-flash-latest" else "gemini-3-pro-preview") := by
  obtain ⟨s, m, t⟩ := config
  cases s <;> cases m <;> cases t <;> decide

/-- Video file reference inside a generated video. -/
structure VideoFile where
  uri : Option String
  deriving DecidableEq

/-- One entry of the generatedVideos array. -/
structure GeneratedVideo where
  video : Option VideoFile
  deriving DecidableEq

/-- Response payload of a videos operation. -/
structure VideosResponse where
  generatedVideos : Option (List GeneratedVideo)
  deriving DecidableEq

/-- A long-running videos operation as observed by the client: the done flag
and the optional response. -/
structure VideosOperation where
  done : Bool
  response : Option VideosResponse
  deriving DecidableEq

/-- The optional chaining operation.response?.generatedVideos?.[0]?.video?.uri
(geminiService.ts line 152). -/
def downloadLink (op : VideosOperation) : Option String :=
  (((op.response.bind (fun r => r.generatedVideos)).bind List.head?).bind
    (fun g => g.video)).bind (fun v => v.uri)

/-- JS template-literal stringification of the optional download link: the
value undefined renders as the text undefined. -/
def jsTemplateString (v : Option String) : String :=
  match v with
  | some s => s
  | none => "undefined"

/-- The while-loop of generateVideoVeo (geminiService.ts lines 147-150):
starting from the current operation, repeatedly re-fetch via
getVideosOperation until the done flag is set. The successive poll results
are the sequence polls; fuel bounds the number of polls performed, and the
result is none when the loop is still running after fuel polls (the source
loop is unbounded, so none models non-termination, not an error). -/
def pollLoop (polls : Nat → VideosOperation) : Nat → Nat → VideosOperation → Option VideosOperation
  | 0, _, op => if op.done then some op else none
  | fuel + 1, i, op =>
      if op.done then some op else pollLoop polls fuel (i + 1) (polls i)

/-- Full model of generateVideoVeo after the initial generateVideos call:
poll until done, then append the literal text, ampersand key equals, and the
API key to the stringified download link. -/
def generateVideoVeo (apiKey : String) (initial : VideosOperation)
    (polls : Nat → VideosOperation) (fuel : Nat) : Option String :=
  (pollLoop polls fuel 0 initial).map
    (fun op => jsTemplateString (downloadLink op) ++ "&key=" ++ apiKey)

/-- The sequence of operations the loop inspects when started at op with poll
results polls i, polls (i+1), and so on: index 0 is op itself, index j+1 is
the j-th poll result. -/
def opsSeqFrom (op : VideosOperation) (polls : Nat → VideosOperation) (i : Nat) :
    Nat → VideosOperation
  | 0 => op
  | j + 1 => polls (i + j)

theorem opsSeqFrom_shift (op : VideosOperation) (polls : Nat → VideosOperation)
    (i j : Nat) :
    opsSeqFrom (polls i) polls (i + 1) j = opsSeqFrom op polls i (j + 1) := by
  cases j with
  | zero => rfl
  | succ j =>
      show polls (i + 1 + j) = polls (i + (j + 1))
      congr 1
      omega

/-- If the k-th inspected operation is the first with the done flag set, the
loop returns exactly that operation once fuel allows k polls. -/
theorem pollLoop_reaches (polls : Nat → VideosOperation) :
    ∀ (k fuel i : Nat) (op : VideosOperation), k ≤ fuel →
      (∀ j, j < k → (opsSeqFrom op polls i j).done = false) →
      (opsSeqFrom op polls i k).done = true →
      pollLoop polls fuel i op = some (opsSeqFrom op polls i k)
  | 0, fuel, i, op, _, _, hdone => by
      have h0 : op.done = true := hdone
      cases fuel with
      | zero => simp [pollLoop, h0, opsSeqFrom]
      | succ f => simp [pollLoop, h0, opsSeqFrom]
  | k + 1, fuel, i, op, hle, hprev, hdone => by
      have h0 : op.done = false := hprev 0 (Nat.succ_pos k)
      obtain ⟨f, rfl⟩ : ∃ f, fuel = f + 1 := ⟨fuel - 1, by omega⟩
      have hrec := pollLoop_reaches polls k f (i + 1) (polls i) (by omega)
        (fun j hj => by
          rw [opsSeqFrom_shift op polls i j]
          exact hprev (j + 1) (by omega))
        (by rw [opsSeqFrom_shift op polls i k]; exact hdone)
      rw [← opsSeqFrom_shift op polls i k] at hdone ⊢
      simpa [pollLoop, h0] using hrec

/-- C4: under the precondition that the k-th inspected poll response is the
first with done set and that it carries a first generated video URI u, the
poll loop terminates (any fuel of at least k polls suffices) and
generateVideoVeo returns u with the API key appended. -/
theorem generateVideoVeo_poll_until_done (apiKey : String)
    (initial : VideosOperation) (polls : Nat → VideosOperation) (k : Nat)
    (u : String)
    (hbefore : ∀ j, j < k → (opsSeqFrom initial polls 0 j).done = false)
    (hdone : (opsSeqFrom initial polls 0 k).done = true)
    (huri : downloadLink (opsSeqFrom initial polls 0 k) = some u) :
    ∀ fuel, k ≤ fuel →
      generateVideoVeo apiKey initial polls fuel = some (u ++ "&key=" ++ apiKey) := by
  intro fuel hle
  unfold generateVideoVeo
  rw [pollLoop_reaches polls k fuel 0 initial hle hbefore hdone]
  simp [jsTemplateString, huri]

/-- A completed operation carrying one video URI, used by the C4 witness. -/
def veoSampleDone : VideosOperation :=
  { done := true
    response := some { generatedVideos := some [{ video := some { uri := some "https://v/1" } }] } }

/-- A pending operation, used by the C4 witness. -/
def veoSampleInit : VideosOperation :=
  { done := false, response := none }

/-- Witness for C4: one poll is needed and one poll of fuel suffices. -/
theorem generateVideoVeo_poll_until_done_witness :
    generateVideoVeo "KEY" veoSampleInit (fun _ => veoSampleDone) 1 =
      some ("https://v/1" ++ "&key=" ++ "KEY") :=
  generateVideoVeo_poll_until_done "KEY" veoSampleInit (fun _ => veoSampleDone) 1
    "https://v/1"
    (by intro j hj
        have hj0 : j = 0 := by omega
        subst hj0
        decide)
    (by decide) (by decide) 1 (by decide)

/-- C10: when an operation completes with no generated videos, the function
does not signal an error: the download link is undefined and the returned
string is the text undefined followed by the key suffix. -/
theorem generateVideoVeo_missing_video (apiKey : String) (op : VideosOperation)
    (hdone : op.done = true)
    (hvids : op.response.bind (fun r => r.generatedVideos) = none ∨
      op.response.bind (fun r => r.generatedVideos) = some []) :
    ∀ polls fuel,
      generateVideoVeo apiKey op polls fuel = some ("undefined" ++ "&key=" ++ apiKey) := by
  intro polls fuel
  have hlink : downloadLink op = none := by
    rcases hvids with h | h <;> simp [downloadLink, h]
  unfold generateVideoVeo
  cases fuel with
  | zero => simp [pollLoop, hdone, jsTemplateString, hlink]
  | succ f => simp [pollLoop, hdone, jsTemplateString, hlink]

/-- A completed operation whose response holds an empty generatedVideos
array, used by the C10 witness. -/
def veoSampleEmpty : VideosOperation :=
  { done := true, response := some { generatedVideos := some [] } }

/-- Witness for C10 at a completed operation with an empty videos array. -/
theorem generateVideoVeo_missing_video_witness :
    generateVideoVeo "KEY" veoSampleEmpty (fun _ => veoSampleEmpty) 0 =
      some ("undefined" ++ "&key=" ++ "KEY") :=
  generateVideoVeo_missing_video "KEY" veoSampleEmpty (by decide)
    (Or.inr (by decide)) (fun _ => veoSampleEmpty) 0

/-- One invocation of the live-session onmessage handler on an audio chunk
(App.tsx lines 201-213): the next-start pointer is first raised to the audio
context's current time, the chunk is scheduled to start there, and the
pointer advances by the chunk's duration. Arguments are the pointer before
the call, the context's currentTime at the call, and the decoded buffer's
duration; the result is the scheduled start time and the new pointer. -/
def onmessageChunk (nextStartTime currentTime dur : ℚ) : ℚ × ℚ :=
  let start := max nextStartTime currentTime
  (start, start + dur)

/-- Runs the onmessage handler over a sequence of received chunks, each given
as the pair of the context's currentTime at that invocation and the chunk's
duration. Returns the scheduled pairs of start time and duration, and the
final value of the next-start pointer. -/
def runLiveAudio (nextStartTime : ℚ) : List (ℚ × ℚ) → List (ℚ × ℚ) × ℚ
  | [] => ([], nextStartTime)
  | chunk :: rest =>
      let sched := onmessageChunk nextStartTime chunk.1 chunk.2
      let r := runLiveAudio sched.2 rest
      ((sched.1, chunk.2) :: r.1, r.2)

theorem runLiveAudio_length (init : ℚ) (chunks : List (ℚ × ℚ)) :
    (runLiveAudio init chunks).1.length = chunks.length := by
  induction chunks generalizing init with
  | nil => rfl
  | cons c rest ih => simp [runLiveAudio, ih]

theorem runLiveAudio_ptr_ge (init : ℚ) (chunks : List (ℚ × ℚ))
    (hdur : ∀ c ∈ chunks, 0 ≤ c.2) :
    init ≤ (runLiveAudio init chunks).2 := by
  induction chunks generalizing init with
  | nil => simp [runLiveAudio]
  | cons c rest ih =>
      have hd : 0 ≤ c.2 := hdur c (List.mem_cons_self c rest)
      have hstep : init ≤ max init c.1 + c.2 := by
        have := le_max_left init c.1
        linarith
      have hr := ih (max init c.1 + c.2) (fun x hx => hdur x (List.mem_cons_of_mem c hx))
      simpa [runLiveAudio, onmessageChunk] using le_trans hstep hr

theorem runLiveAudio_append (init : ℚ) (l₁ l₂ : List (ℚ × ℚ)) :
    runLiveAudio init (l₁ ++ l₂) =
      ((runLiveAudio init l₁).1 ++ (runLiveAudio (runLiveAudio init l₁).2 l₂).1,
        (runLiveAudio (runLiveAudio init l₁).2 l₂).2) := by
  induction l₁ generalizing init with
  | nil => simp [runLiveAudio]
  | cons c rest ih => simp [runLiveAudio, ih]

theorem runLiveAudio_first_start_ge (p : ℚ) (c : ℚ × ℚ) (rest : List (ℚ × ℚ)) :
    p ≤ (((runLiveAudio p (c :: rest)).1.getD 0 (0, 0)).1) := by
  simp [runLiveAudio, onmessageChunk]

theorem runLiveAudio_chain (init : ℚ) (chunks : List (ℚ × ℚ)) :
    ∀ k, k + 1 < (runLiveAudio init chunks).1.length →
      ((runLiveAudio init chunks).1.getD k (0, 0)).1 +
          ((runLiveAudio init chunks).1.getD k (0, 0)).2 ≤
        ((runLiveAudio init chunks).1.getD (k + 1) (0, 0)).1 := by
  induction chunks generalizing init with
  | nil => intro k hk; simp [runLiveAudio] at hk
  | cons c rest ih =>
      intro k hk
      cases k with
      | zero =>
          cases rest with
          | nil => simp [runLiveAudio] at hk
          | cons c' rest' =>
              simp [runLiveAudio, onmessageChunk]
      | succ k =>
          have hk' : k + 1 < (runLiveAudio (max init c.1 + c.2) rest).1.length := by
            simpa [runLiveAudio, onmessageChunk] using hk
          have := ih (max init c.1 + c.2) k hk'
          simpa [runLiveAudio, onmessageChunk] using this

theorem runLiveAudio_start_ge_currentTime (init : ℚ) (chunks : List (ℚ × ℚ)) :
    ∀ k, k < chunks.length →
      (chunks.getD k (0, 0)).1 ≤ ((runLiveAudio init chunks).1.getD k (0, 0)).1 := by
  induction chunks generalizing init with
  | nil => intro k hk; simp at hk
  | cons c rest ih =>
      intro k hk
      cases k with
      | zero => simp [runLiveAudio, onmessageChunk]
      | succ k =>
          have hk' : k < rest.length := by simpa using hk
          have := ih (max init c.1 + c.2) k hk'
          simpa [runLiveAudio, onmessageChunk] using this

/-- C2: over any sequence of received chunks with nonnegative durations, the
onmessage scheduling satisfies: one chunk is scheduled per invocation; each
chunk's start time is at least the end (start plus duration) of the
previously scheduled chunk; each chunk's start time is at least the context's
current time at its invocation; and the next-start pointer is monotonically
non-decreasing across invocations (every prefix's final pointer is at most
any longer prefix's, and the initial pointer is at most the final one). -/
theorem onmessage_scheduling_invariants (init : ℚ) (chunks : List (ℚ × ℚ))
    (hdur : ∀ c ∈ chunks, 0 ≤ c.2) :
    ((runLiveAudio init chunks).1.length = chunks.length) ∧
    (∀ k, k + 1 < (runLiveAudio init chunks).1.length →
      ((runLiveAudio init chunks).1.getD k (0, 0)).1 +
          ((runLiveAudio init chunks).1.getD k (0, 0)).2 ≤
        ((runLiveAudio init chunks).1.getD (k + 1) (0, 0)).1) ∧
    (∀ k, k < chunks.length →
      (chunks.getD k (0, 0)).1 ≤ ((runLiveAudio init chunks).1.getD k (0, 0)).1) ∧
    (init ≤ (runLiveAudio init chunks).2) ∧
    (∀ l₁ l₂, chunks = l₁ ++ l₂ →
      (runLiveAudio init l₁).2 ≤ (runLiveAudio init chunks).2) := by
  refine ⟨runLiveAudio_length init chunks, runLiveAudio_chain init chunks,
    runLiveAudio_start_ge_currentTime init chunks,
    runLiveAudio_ptr_ge init chunks hdur, ?_⟩
  intro l₁ l₂ hsplit
  subst hsplit
  rw [runLiveAudio_append]
  exact runLiveAudio_ptr_ge _ l₂
    (fun x hx => hdur x (List.mem_append_right l₁ hx))

/-- Witness for C2 on three concrete chunks, including one whose arrival
finds the context time ahead of the pointer. -/
theorem onmessage_scheduling_invariants_witness :
    ((∀ c ∈ [((0 : ℚ), (1 : ℚ)), (5, 2), (3, 1)], 0 ≤ c.2) ∧
      (((runLiveAudio 0 [((0 : ℚ), (1 : ℚ)), (5, 2), (3, 1)]).1.length = 3) ∧
        (∀ k, k + 1 < (runLiveAudio 0 [((0 : ℚ), (1 : ℚ)), (5, 2), (3, 1)]).1.length →
          ((runLiveAudio 0 [((0 : ℚ), (1 : ℚ)), (5, 2), (3, 1)]).1.getD k (0, 0)).1 +
              ((runLiveAudio 0 [((0 : ℚ), (1 : ℚ)), (5, 2), (3, 1)]).1.getD k (0, 0)).2 ≤
            ((runLiveAudio 0 [((0 : ℚ), (1 : ℚ)), (5, 2), (3, 1)]).1.getD (k + 1) (0, 0)).1) ∧
        (∀ k, k < ([((0 : ℚ), (1 : ℚ)), (5, 2), (3, 1)] : List (ℚ × ℚ)).length →
          (([((0 : ℚ), (1 : ℚ)), (5, 2), (3, 1)] : List (ℚ × ℚ)).getD k (0, 0)).1 ≤
            ((runLiveAudio 0 [((0 : ℚ), (1 : ℚ)), (5, 2), (3, 1)]).1.getD k (0, 0)).1) ∧
        ((0 : ℚ) ≤ (runLiveAudio 0 [((0 : ℚ), (1 : ℚ)), (5, 2), (3, 1)]).2) ∧
        (∀ l₁ l₂, ([((0 : ℚ), (1 : ℚ)), (5, 2), (3, 1)] : List (ℚ × ℚ)) = l₁ ++ l₂ →
          (runLiveAudio 0 l₁).2 ≤
            (runLiveAudio 0 [((0 : ℚ), (1 : ℚ)), (5, 2), (3, 1)]).2))) := by
  refine ⟨by decide, ?_⟩
  have h := onmessage_scheduling_invariants 0 [((0 : ℚ), (1 : ℚ)), (5, 2), (3, 1)] (by decide)
  simpa [runLiveAudio_length] using h

/-- Processing steps from src/types.ts. -/
inductive ProcessingStep
  | IDLE
  | PROCESSING
  | OCR_EXTRACTING
  | SEMANTIC_ANALYSIS
  | MULTIMODAL_REASONING
  | COMPLETED
  | FAILED
  deriving DecidableEq

/-- Structured analysis result from src/types.ts. Sections are title,
content, risk-score triples; the freeform jsonSchema payload and entity
lists are irrelevant to the verified claims and abstracted to their textual
carriers. -/
structure AnalysisResult where
  markdown : String
  explanation : String
  sections : List (String × String × ℚ)
  websiteCode : Option String
  deriving DecidableEq

/-- UI state record from src/types.ts; the selected File is abstracted to its
name. -/
structure AppState where
  file : Option String
  previewUrl : Option String
  step : ProcessingStep
  result : Option AnalysisResult
  error : Option String
  deriving DecidableEq

/-- The two progress timers of runMultimodalAnalysis (App.tsx lines 77-78);
each only overwrites the step field. -/
def applyProgressTimers : Nat → AppState → AppState
  | 0, st => st
  | 1, st => { st with step := ProcessingStep.SEMANTIC_ANALYSIS }
  | _ + 2, st => { st with step := ProcessingStep.MULTIMODAL_REASONING }

/-- Shallow model of runMultimodalAnalysis (App.tsx lines 67-95). The
try/catch wraps only the synchronous body, which constructs the FileReader,
starts the read and registers the onload callback; none of these throw. The
async onload body — including the awaited processMultimodalIntel call — runs
after the try/catch has already exited, so a rejection inside it is not
routed to the catch block: it becomes an unhandled promise rejection.
apiOutcome is the settled outcome of processMultimodalIntel as observed by
the onload body, timersFired is how many of the two progress timers have
fired before the call settles. The returned Bool is true when an error
escaped as an unhandled rejection. -/
def runMultimodalAnalysis (st : AppState)
    (apiOutcome : Except String AnalysisResult) (timersFired : Nat) :
    AppState × Bool :=
  match st.file with
  | none => (st, false)
  | some _ =>
    let st1 := { st with step := ProcessingStep.OCR_EXTRACTING }
    let st2 := applyProgressTimers timersFired st1
    match apiOutcome with
    | Except.ok data =>
        ({ st2 with result := some data, step := ProcessingStep.COMPLETED }, false)
    | Except.error _ => (st2, true)

/-- Initial UI state with a file selected, used to exercise the failing
input of C3. -/
def appStateWithFile : AppState :=
  { file := some "contract.pdf"
    previewUrl := none
    step := ProcessingStep.IDLE
    result := none
    error := none }

/-- C3 fails on the code: when processMultimodalIntel rejects after the file
is read, the rejection escapes the try/catch uncaught, the step never
becomes FAILED (it is left at the last progress-timer value) and the error
field stays empty — evaluated here at a concrete failing input, for every
number of fired progress timers. -/
theorem runMultimodalAnalysis_uncaught_rejection :
    ∀ timersFired, timersFired ≤ 2 →
      (runMultimodalAnalysis appStateWithFile (Except.error "network failure")
          timersFired).1.step ≠ ProcessingStep.FAILED ∧
      (runMultimodalAnalysis appStateWithFile (Except.error "network failure")
          timersFired).1.error = none ∧
      (runMultimodalAnalysis appStateWithFile (Except.error "network failure")
          timersFired).2 = true := by
  decide

/-- Witness for C3's theorem at the concrete timer count two. -/
theorem runMultimodalAnalysis_uncaught_rejection_witness :
    (2 : Nat) ≤ 2 ∧
      (runMultimodalAnalysis appStateWithFile (Except.error "network failure")
          2).1.step ≠ ProcessingStep.FAILED ∧
      (runMultimodalAnalysis appStateWithFile (Except.error "network failure")
          2).1.error = none ∧
      (runMultimodalAnalysis appStateWithFile (Except.error "network failure")
          2).2 = true :=
  ⟨by decide, runMultimodalAnalysis_uncaught_rejection 2 (by decide)⟩

/-- Application modes from src/types.ts. -/
inductive AppMode
  | DOC_INTEL
  | CREATIVE
  | LIVE_VOICE
  | CHAT
  | VIDEO
  | TRANSCRIPTION
  | HUGGING_FACE
  deriving DecidableEq

/-- An open live streaming session, identified abstractly. -/
structure LiveSession where
  id : Nat
  deriving DecidableEq

/-- The App component's state and refs (App.tsx lines 8-43): mode, UI state,
tab and toggle settings, creative-suite fields, chat fields, the live-voice
flag, the session ref, the next-start-time ref, and the transcript. Chat
turns are role-is-user flag and text. -/
structure ComponentState where
  mode : AppMode
  uiState : AppState
  activeTab : String
  thinkingEnabled : Bool
  intent : String
  searchEnabled : Bool
  mapsEnabled : Bool
  creativePrompt : String
  aspectRatio : String
  imageSize : String
  creativeOutput : Option String
  chatInput : String
  chatHistory : List (Bool × String)
  chatModelTypeIsPro : Bool
  isLiveActive : Bool
  liveSession : Option LiveSession
  nextStartTime : ℚ
  transcript : String
  deriving DecidableEq

/-- Externally visible session effects of the live-voice toggle. -/
inductive LiveEffect
  | closeSession
  | connectSession
  deriving DecidableEq

/-- Shallow model of toggleLiveVoiceInterface (App.tsx lines 171-226). When
the session is active: an optional-chaining close call on the session ref,
the active flag cleared, early return. Otherwise a connect is attempted;
connectOutcome is its settled result — on success the session ref is set and
the onopen callback has set the active flag, on failure the error is only
logged. Returns the new component state and the session effects performed. -/
def toggleLiveVoiceInterface (st : ComponentState)
    (connectOutcome : Option LiveSession) : ComponentState × List LiveEffect :=
  if st.isLiveActive then
    ({ st with isLiveActive := false },
      match st.liveSession with
      | some _ => [LiveEffect.closeSession]
      | none => [])
  else
    match connectOutcome with
    | some s =>
        ({ st with liveSession := some s, isLiveActive := true },
          [LiveEffect.connectSession])
    | none => (st, [LiveEffect.connectSession])

/-- C7: with the live session active and the session ref set, the toggle
performs exactly one close call and no connect, clears the active flag, and
leaves every other component field — including the session ref — unchanged. -/
theorem toggleLive_active_close_only (st : ComponentState) (s : LiveSession)
    (outcome : Option LiveSession)
    (hactive : st.isLiveActive = true) (hsession : st.liveSession = some s) :
    toggleLiveVoiceInterface st outcome =
      ({ st with isLiveActive := false }, [LiveEffect.closeSession]) := by
  simp [toggleLiveVoiceInterface, hactive, hsession]

/-- Component state with an active live session, used by the C7 witness. -/
def liveActiveState : ComponentState :=
  { mode := AppMode.LIVE_VOICE
    uiState := appStateWithFile
    activeTab := "sections"
    thinkingEnabled := false
    intent := "Extract structured insights and detect risks."
    searchEnabled := false
    mapsEnabled := false
    creativePrompt := ""
    aspectRatio := "1:1"
    imageSize := "1K"
    creativeOutput := none
    chatInput := ""
    chatHistory := []
    chatModelTypeIsPro := true
    isLiveActive := true
    liveSession := some { id := 7 }
    nextStartTime := 3
    transcript := "" }

/-- Witness for C7 at a concrete active component state. -/
theorem toggleLive_active_close_only_witness :
    liveActiveState.isLiveActive = true ∧
      liveActiveState.liveSession = some { id := 7 } ∧
      toggleLiveVoiceInterface liveActiveState none =
        ({ liveActiveState with isLiveActive := false }, [LiveEffect.closeSession]) :=
  ⟨by decide, by decide,
    toggleLive_active_close_only liveActiveState { id := 7 } none
      (by decide) (by decide)⟩

/-- The base64 alphabet used by btoa and atob. -/
def base64Chars : List Char :=
  "ABCDEFGHIJKLMNOPQRSTUVWXYZabcdefghijklmnopqrstuvwxyz0123456789+/".data

/-- The alphabet character at a 6-bit index. -/
def base64Char (n : Nat) : Char := base64Chars.getD n 'A'

/-- Index of a character in the base64 alphabet, none for non-alphabet
characters. -/
def base64Value (c : Char) : Option Nat :=
  base64Chars.findIdx? (fun d => d = c)

/-- Model of the platform builtin btoa on a binary string given as its
char-code sequence: standard base64, three bytes to four characters, with
equals-sign padding on a trailing group of one or two bytes. Char codes of
256 or more make the real btoa throw; the model is used under the Uint8Array
bound of 256. -/
def btoa : List Nat → List Char
  | [] => []
  | [a] => [base64Char (a / 4), base64Char (a % 4 * 16), '=', '=']
  | [a, b] =>
      [base64Char (a / 4), base64Char (a % 4 * 16 + b / 16),
        base64Char (b % 16 * 4), '=']
  | a :: b :: c :: rest =>
      base64Char (a / 4) :: base64Char (a % 4 * 16 + b / 16) ::
        base64Char (b % 16 * 4 + c / 64) :: base64Char (c % 64) :: btoa rest

/-- Model of the platform builtin atob: decodes four-character groups,
accepting equals-sign padding only in the final group; none models the
exception the real atob throws on invalid length, a non-alphabet character
or misplaced padding. The result is the decoded binary string as its
char-code sequence. -/
def atob : List Char → Option (List Nat)
  | [] => some []
  | w :: x :: y :: z :: rest =>
      match base64Value w, base64Value x with
      | some vw, some vx =>
          if y = '=' then
            if z = '=' ∧ rest = [] then some [vw * 4 + vx / 16] else none
          else
            match base64Value y with
            | some vy =>
                if z = '=' then
                  if rest = [] then
                    some [vw * 4 + vx / 16, vx % 16 * 16 + vy / 4]
                  else none
                else
                  match base64Value z with
                  | some vz =>
                      match atob rest with
                      | some tail =>
                          some ((vw * 4 + vx / 16) :: (vx % 16 * 16 + vy / 4) ::
                            (vy % 4 * 64 + vz) :: tail)
                      | none => none
                  | none => none
            | none => none
      | _, _ => none
  | _ => none

/-- Model of encodeAudio (geminiService.ts lines 211-215): the loop builds
the binary string whose char codes are exactly the bytes (String.fromCharCode
is the identity on the char-code representation), then btoa encodes it. -/
def encodeAudio (bytes : List Nat) : List Char := btoa bytes

/-- Model of decodeBase64Audio (geminiService.ts lines 192-198): atob, then
charCodeAt at every position (again the identity on the char-code
representation). -/
def decodeBase64Audio (base64 : List Char) : Option (List Nat) := atob base64

theorem base64Value_base64Char : ∀ n, n < 64 → base64Value (base64Char n) = some n := by
  decide

theorem base64Char_ne_pad : ∀ n, n < 64 → base64Char n ≠ '=' := by
  decide

theorem atob_btoa : ∀ (l : List Nat), (∀ b ∈ l, b < 256) → atob (btoa l) = some l
  | [], _ => by simp [btoa, atob]
  | [a], h => by
      have ha : a < 256 := h a (by simp)
      have h1 : a / 4 < 64 := by omega
      have h2 : a % 4 * 16 < 64 := by omega
      simp [btoa, atob, base64Value_base64Char _ h1, base64Value_base64Char _ h2]
      omega
  | [a, b], h => by
      have ha : a < 256 := h a (by simp)
      have hb : b < 256 := h b (by simp)
      have h1 : a / 4 < 64 := by omega
      have h2 : a % 4 * 16 + b / 16 < 64 := by omega
      have h3 : b % 16 * 4 < 64 := by omega
      have hy : base64Char (b % 16 * 4) ≠ '=' := base64Char_ne_pad _ h3
      simp [btoa, atob, base64Value_base64Char _ h1, base64Value_base64Char _ h2,
        base64Value_base64Char _ h3, hy]
      omega
  | a :: b :: c :: rest, h => by
      have ha : a < 256 := h a (by simp)
      have hb : b < 256 := h b (by simp)
      have hc : c < 256 := h c (by simp)
      have h1 : a / 4 < 64 := by omega
      have h2 : a % 4 * 16 + b / 16 < 64 := by omega
      have h3 : b % 16 * 4 + c / 64 < 64 := by omega
      have h4 : c % 64 < 64 := by omega
      have hy : base64Char (b % 16 * 4 + c / 64) ≠ '=' := base64Char_ne_pad _ h3
      have hz : base64Char (c % 64) ≠ '=' := base64Char_ne_pad _ h4
      have hrest := atob_btoa rest (fun x hx => h x (by simp [hx]))
      simp [btoa, atob, base64Value_base64Char _ h1, base64Value_base64Char _ h2,
        base64Value_base64Char _ h3, base64Value_base64Char _ h4, hy, hz, hrest]
      omega

/-- C8: for every byte array with entries below 256, decodeBase64Audio
inverts encodeAudio: the base64 audio utilities round-trip. -/
theorem decodeBase64Audio_encodeAudio (bytes : List Nat)
    (h : ∀ b ∈ bytes, b < 256) :
    decodeBase64Audio (encodeAudio bytes) = some bytes :=
  atob_btoa bytes h

/-- Witness for C8 on a concrete five-byte array exercising padding of one
trailing byte and the full range of byte values. -/
theorem decodeBase64Audio_encodeAudio_witness :
    (∀ b ∈ [0, 255, 7, 128, 63], b < 256) ∧
      decodeBase64Audio (encodeAudio [0, 255, 7, 128, 63]) =
        some [0, 255, 7, 128, 63] :=
  ⟨by decide, decodeBase64Audio_encodeAudio [0, 255, 7, 128, 63] (by decide)⟩

/-- One little-endian signed 16-bit sample from two bytes, as produced by
viewing the Uint8Array's buffer through an Int16Array. -/
def toInt16 (lo hi : Nat) : Int :=
  let v := lo + 256 * hi
  if v < 32768 then (v : Int) else (v : Int) - 65536

/-- The Int16Array view of the byte sequence (pairs of bytes, little
endian). The real constructor throws on an odd byte length; PCM payloads are
even and the model is used under that shape. -/
def toInt16List : List Nat → List Int
  | lo :: hi :: rest => toInt16 lo hi :: toInt16List rest
  | _ => []

/-- Model of decodeAudioData (geminiService.ts lines 200-209): the byte
array is viewed as 16-bit samples, the frame count is the sample count
divided by the channel count, and channel data at frame i is the sample at
interleaved index i times numChannels plus channel, divided by 32768.
Samples are rationals: the JS division s / 32768.0 of a 16-bit integer by
the power of two 32768 is exact in binary floating point, so rational
arithmetic models it without rounding. -/
def decodeAudioData (data : List Nat) (numChannels : Nat) : List (List ℚ) :=
  let dataInt16 := toInt16List data
  let frameCount := dataInt16.length / numChannels
  (List.range numChannels).map fun channel =>
    (List.range frameCount).map fun i =>
      ((dataInt16.getD (i * numChannels + channel) 0 : Int) : ℚ) / 32768

theorem getD_map_range {α : Type} (f : Nat → α) (n k : Nat) (d : α) (hk : k < n) :
    ((List.range n).map f).getD k d = f k := by
  rw [List.getD_eq_getElem?_getD, List.getElem?_map, List.getElem?_range hk]
  rfl

theorem toInt16_bounds (lo hi : Nat) (hlo : lo < 256) (hhi : hi < 256) :
    -32768 ≤ toInt16 lo hi ∧ toInt16 lo hi ≤ 32767 := by
  simp only [toInt16]
  split <;> omega

theorem toInt16List_bounds : ∀ (data : List Nat), (∀ b ∈ data, b < 256) →
    ∀ v ∈ toInt16List data, -32768 ≤ v ∧ v ≤ 32767
  | [], _ => by simp [toInt16List]
  | [lo], _ => by simp [toInt16List]
  | lo :: hi :: rest, h => by
      intro v hv
      simp only [toInt16List, List.mem_cons] at hv
      rcases hv with hv | hv
      · subst hv
        exact toInt16_bounds lo hi (h lo (by simp)) (h hi (by simp))
      · exact toInt16List_bounds rest (fun x hx => h x (by simp [hx])) v hv

theorem toInt16List_getD_bounds (data : List Nat) (h : ∀ b ∈ data, b < 256)
    (idx : Nat) :
    -32768 ≤ (toInt16List data).getD idx 0 ∧ (toInt16List data).getD idx 0 ≤ 32767 := by
  rcases lt_or_le idx (toInt16List data).length with hlt | hge
  · rw [List.getD_eq_getElem _ _ hlt]
    exact toInt16List_bounds data h _ (List.getElem_mem hlt)
  · rw [List.getD_eq_default _ _ hge]
    exact ⟨by norm_num, by norm_num⟩

/-- C9: decodeAudioData maps the sample at interleaved index i times
numChannels plus channel to exactly that sample divided by 32768; every
produced sample lies between -1 and 32767 / 32768 inclusive; and with one
channel the produced frame count equals the input sample count. -/
theorem decodeAudioData_samples (data : List Nat) (numChannels : Nat)
    (hbytes : ∀ b ∈ data, b < 256) :
    (∀ channel, channel < numChannels →
      ∀ i, i < (toInt16List data).length / numChannels →
        ((decodeAudioData data numChannels).getD channel []).getD i 0 =
          (((toInt16List data).getD (i * numChannels + channel) 0 : Int) : ℚ) / 32768) ∧
    (∀ ch ∈ decodeAudioData data numChannels, ∀ s ∈ ch,
      -1 ≤ s ∧ s ≤ 32767 / 32768) ∧
    ((decodeAudioData data 1).getD 0 []).length = (toInt16List data).length := by
  refine ⟨?_, ?_, ?_⟩
  · intro channel hch i hi
    simp only [decodeAudioData]
    rw [getD_map_range _ _ _ _ hch, getD_map_range _ _ _ _ hi]
  · intro ch hch s hs
    simp only [decodeAudioData, List.mem_map] at hch
    obtain ⟨channel, hchannel, rfl⟩ := hch
    simp only [List.mem_map] at hs
    obtain ⟨i, hi, rfl⟩ := hs
    obtain ⟨hlo, hhi⟩ := toInt16List_getD_bounds data hbytes (i * numChannels + channel)
    have h32 : (0 : ℚ) < 32768 := by norm_num
    have hloq : (-32768 : ℚ) ≤ (((toInt16List data).getD (i * numChannels + channel) 0 : Int) : ℚ) := by
      exact_mod_cast hlo
    have hhiq : (((toInt16List data).getD (i * numChannels + channel) 0 : Int) : ℚ) ≤ 32767 := by
      exact_mod_cast hhi
    constructor
    · rw [le_div_iff₀ h32]
      linarith
    · rw [div_le_div_iff₀ h32 h32]
      linarith
  · simp [decodeAudioData]

/-- Witness for C9 on six concrete bytes (samples 0, -1 and -32768) with one
channel. -/
theorem decodeAudioData_samples_witness :
    (∀ b ∈ [0, 0, 255, 255, 0, 128], b < 256) ∧
      ((∀ channel, channel < 1 →
        ∀ i, i < (toInt16List [0, 0, 255, 255, 0, 128]).length / 1 →
          ((decodeAudioData [0, 0, 255, 255, 0, 128] 1).getD channel []).getD i 0 =
            (((toInt16List [0, 0, 255, 255, 0, 128]).getD (i * 1 + channel) 0 : Int) : ℚ) / 32768) ∧
      (∀ ch ∈ decodeAudioData [0, 0, 255, 255, 0, 128] 1, ∀ s ∈ ch,
        -1 ≤ s ∧ s ≤ 32767 / 32768) ∧
      ((decodeAudioData [0, 0, 255, 255, 0, 128] 1).getD 0 []).length =
        (toInt16List [0, 0, 255, 255, 0, 128]).length) :=
  ⟨by decide, decodeAudioData_samples [0, 0, 255, 255, 0, 128] 1 (by decide)⟩

end DocuMind
